import Mathlib

/-!
Shallow embedding of `src/manychat_extractor.py` (victoryudi/manychat-data-extractor).

The embedding models:
* the parsed JSON values the code manipulates (`JsonVal`);
* the output record dataclass `ManyChatData`;
* the mutable counters `ExtractorStats`, with each counter mutation of the
  Python code reified as a `StatUpdate`;
* the per-key lookup `fetch_manychat_data_async`, as a pure function from the
  observed response behaviour (network error, JSON decode error, or an HTTP
  status plus parsed body) to the returned record and the stats updates it
  performs; the recursive retry on HTTP 429 consumes the next element of the
  behaviour chain, and `none` stands for a chain exhausted by 429 responses;
* the batch loop of `process_csv_async`: normalization and the processed-set
  filter, slicing into batches of 10, per-batch result accumulation and
  checkpoint writes, the stats-update order (per-lookup counters during the
  batch, `total_processed` after it), and the salvage write of the
  `except` handler;
* the `RateLimiter` with timestamps drawn from an arbitrary linearly ordered
  additive group (so the theorems cover the reals; concrete runs instantiate
  it at `Int`), `acquire` returning the state after the call together with
  the instant at which the call returns (its admission time), and `none`
  standing for the `IndexError` raised by `self.requests[0]` on an empty
  list.
-/

/-- Parsed JSON values, as handed to the code by `response.json()`. -/
inductive JsonVal where
  | null : JsonVal
  | str : String → JsonVal
  | num : Int → JsonVal
  | obj : List (String × JsonVal) → JsonVal
  | arr : List JsonVal → JsonVal

/-- Python `x == "lit"` for a JSON value: true only for the equal string. -/
def jsonEqStr : JsonVal → String → Bool
  | JsonVal.str s, t => s = t
  | _, _ => false

/-- Python `dict.get(k)` on a JSON object's key-value list. -/
def jsonGet (kvs : List (String × JsonVal)) (k : String) : Option JsonVal :=
  List.lookup k kvs

/-- The `ManyChatData` dataclass: email plus optional enriched fields.
Field values come from the JSON body, so they are `Option JsonVal`. -/
structure ManyChatData where
  email : String
  manychat_id : Option JsonVal := none
  shopify_domain : Option JsonVal := none
  telephone : Option JsonVal := none
  processed_at : Option String := none

/-- The record returned on the empty and failure paths:
`ManyChatData(email=email, processed_at=...)`, all enriched fields `None`. -/
def bareRecord (email ts : String) : ManyChatData :=
  { email := email, processed_at := some ts }

/-- One mutation of the shared `ExtractorStats` performed by the code. -/
inductive StatUpdate where
  | success : StatUpdate
  | emptyResp : StatUpdate
  | failed : String → String → StatUpdate
  | rateLimited : StatUpdate
deriving DecidableEq

/-- The counter fields of `ExtractorStats` (timestamps are modelled where the
run models need them). -/
structure ExtractorStats where
  total_processed : Nat := 0
  successful : Nat := 0
  failed : Nat := 0
  empty_responses : Nat := 0
  rate_limited : Nat := 0
  errors : List (String × String) := []
deriving DecidableEq

/-- Apply one stats mutation, as the corresponding Python statement does. -/
def applyUpdate (s : ExtractorStats) : StatUpdate → ExtractorStats
  | StatUpdate.success => { s with successful := s.successful + 1 }
  | StatUpdate.emptyResp => { s with empty_responses := s.empty_responses + 1 }
  | StatUpdate.failed e m =>
      { s with failed := s.failed + 1, errors := s.errors ++ [(e, m)] }
  | StatUpdate.rateLimited => { s with rate_limited := s.rate_limited + 1 }

/-- Apply a list of stats mutations in order. -/
def applyUpdates (s : ExtractorStats) (us : List StatUpdate) : ExtractorStats :=
  us.foldl applyUpdate s

/-- One observed behaviour of the HTTP lookup for one request:
the `session.get`/body read raising (`netErr`), `response.json()` raising
after a response with the given status (`jsonErr`), or a response with a
status and a parsed JSON body (`ok`). -/
inductive FetchBehavior where
  | netErr : String → FetchBehavior
  | jsonErr : Nat → String → FetchBehavior
  | ok : Nat → JsonVal → FetchBehavior

/-- The HTTP status carried by a behaviour (0 when the request itself failed
before any status was received). -/
def behaviorStatus : FetchBehavior → Nat
  | FetchBehavior.netErr _ => 0
  | FetchBehavior.jsonErr s _ => s
  | FetchBehavior.ok s _ => s

/-- `next((field['value'] for field in custom_fields if field['name'] == target), None)`:
scan the fields lazily; raise `KeyError` when a scanned entry lacks `name`,
or when the first `name`-matching entry lacks `value`; raise `TypeError`
when a scanned entry is not a JSON object; `none` when no entry matches. -/
def scanField (target : String) : List JsonVal → Except String (Option JsonVal)
  | [] => Except.ok none
  | f :: rest =>
    match f with
    | JsonVal.obj kvs =>
      match jsonGet kvs "name" with
      | none => Except.error "KeyError: name"
      | some nv =>
        if jsonEqStr nv target then
          match jsonGet kvs "value" with
          | none => Except.error "KeyError: value"
          | some v => Except.ok (some v)
        else scanField target rest
    | _ => Except.error "TypeError: field is not a dict"

/-- The body of the `if data.get('status') == 'success':` branch
(lines 168-179): build the enriched `ManyChatData`, or raise. `kvs` is the
top-level JSON object. -/
def successBranch (email ts : String) (kvs : List (String × JsonVal)) :
    Except String ManyChatData :=
  match (jsonGet kvs "data").getD (JsonVal.obj []) with
  | JsonVal.obj rd =>
    match (jsonGet rd "custom_fields").getD (JsonVal.arr []) with
    | JsonVal.arr cf =>
      match scanField "shopify_domain" cf with
      | Except.error m => Except.error m
      | Except.ok dom =>
        match scanField "telephone" cf with
        | Except.error m => Except.error m
        | Except.ok tel =>
          Except.ok { email := email, manychat_id := jsonGet rd "id",
                      shopify_domain := dom, telephone := tel,
                      processed_at := some ts }
    | _ => Except.error "TypeError: custom_fields is not iterable as dicts"
  | _ => Except.error "AttributeError: data is not a dict"

/-- Handle one non-429 response (the part of `fetch_manychat_data_async`
after the 429 check): `raise_for_status`, JSON-body dispatch, and the
`except Exception` handler turning any raise into the failed path. -/
def handleResponse (email ts : String) (b : FetchBehavior) :
    ManyChatData × StatUpdate :=
  match b with
  | FetchBehavior.netErr msg => (bareRecord email ts, StatUpdate.failed email msg)
  | FetchBehavior.jsonErr status msg =>
    if 400 ≤ status then
      (bareRecord email ts, StatUpdate.failed email "HTTPError")
    else
      (bareRecord email ts, StatUpdate.failed email msg)
  | FetchBehavior.ok status body =>
    if 400 ≤ status then
      (bareRecord email ts, StatUpdate.failed email "HTTPError")
    else
      match body with
      | JsonVal.obj kvs =>
        if (jsonGet kvs "status").elim false (fun v => jsonEqStr v "success") then
          match successBranch email ts kvs with
          | Except.ok r => (r, StatUpdate.success)
          | Except.error m => (bareRecord email ts, StatUpdate.failed email m)
        else
          (bareRecord email ts, StatUpdate.emptyResp)
      | _ =>
        (bareRecord email ts, StatUpdate.failed email "AttributeError: body is not a dict")

/-- `fetch_manychat_data_async` over a chain of response behaviours: a 429
response increments `rate_limited` and retries on the rest of the chain
(the 10-second cooldown has no observable effect on the returned data);
any other behaviour is terminal. `none` models a chain exhausted while
still rate-limited (the unbounded-retry case truncated). -/
def fetch_manychat_data (email ts : String) :
    List FetchBehavior → Option (ManyChatData × List StatUpdate)
  | [] => none
  | b :: rest =>
    if behaviorStatus b = 429 then
      match fetch_manychat_data email ts rest with
      | none => none
      | some (r, us) => some (r, StatUpdate.rateLimited :: us)
    else
      some ((handleResponse email ts b).1, [(handleResponse email ts b).2])

/-- Python `c.lower()` for one character, at the ASCII level. -/
def pyLower (c : Char) : Char :=
  if 'A' ≤ c ∧ c ≤ 'Z' then Char.ofNat (c.toNat + 32) else c

/-- Python `s.strip()`: drop whitespace from both ends. -/
def pyStrip (l : List Char) : List Char :=
  ((l.dropWhile Char.isWhitespace).reverse.dropWhile Char.isWhitespace).reverse

/-- `email.strip().lower()` (line 240), modelled on the character list.
Named `normalizeEmail` because `normalize` already exists in the ambient
library. -/
def normalizeEmail (s : String) : String := ⟨(pyStrip s.data).map pyLower⟩

/-- The work list (lines 239-242): normalized input emails with those already
in the processed set removed, preserving input order. -/
def emailsToProcess (input : List String) (processed : List String) : List String :=
  (input.map normalizeEmail).filter (fun e => !(processed.contains e))

/-- Resume loading (lines 233-235): the in-memory result set is seeded with the
checkpoint's records. -/
def resumeResults (checkpoint : List ManyChatData) : List ManyChatData :=
  checkpoint

/-- Resume loading (line 234): the processed set is the checkpoint's email
column. -/
def processedEmails (checkpoint : List ManyChatData) : List String :=
  checkpoint.map ManyChatData.email

/-- `for i in range(0, total_emails, batch_size): batch = emails_to_process[i:i + batch_size]`
with `batch_size = 10` (lines 248, 259-260), as the list of slices. -/
def batches (l : List String) : List (List String) :=
  if h : l = [] then []
  else l.take 10 :: batches (l.drop 10)
termination_by l.length
decreasing_by
  simp only [List.length_drop]
  have : 0 < l.length := List.length_pos.mpr h
  omega

/-- `asyncio.gather` over one batch (lines 198-200): each email's lookup runs
to completion, contributing one record and its stats updates; `none` when
some lookup never terminates (unbounded 429 retries). The model serializes
the cooperative interleaving in batch order; the claims proved below depend
only on the multiset of updates and the records, not on this order. -/
def process_batch (oracle : String → List FetchBehavior) (ts : String) :
    List String → Option (List ManyChatData × List StatUpdate)
  | [] => some ([], [])
  | e :: es =>
    match fetch_manychat_data e ts (oracle e) with
    | none => none
    | some (r, us) =>
      match process_batch oracle ts es with
      | none => none
      | some (rs, us2) => some (r :: rs, us ++ us2)

/-- `self.stats.total_processed += len(batch_results)` (line 264). -/
def bumpTotal (s : ExtractorStats) (n : Nat) : ExtractorStats :=
  { s with total_processed := s.total_processed + n }

/-- The batch loop (lines 259-270) on the happy path: for each batch, gather
the lookups (their counter updates land during the batch), extend the result
list, bump `total_processed`, and append a checkpoint write of the full
accumulated result list. Returns the final results, final stats, and the
checkpoint-write log in order. -/
def runBatches (oracle : String → List FetchBehavior) (ts : String) :
    List (List String) → List ManyChatData → ExtractorStats →
    List (List ManyChatData) →
    Option (List ManyChatData × ExtractorStats × List (List ManyChatData))
  | [], res, st, ws => some (res, st, ws)
  | b :: bs, res, st, ws =>
    match process_batch oracle ts b with
    | none => none
    | some (brs, ups) =>
      let res2 := res ++ brs
      let st2 := bumpTotal (applyUpdates st ups) brs.length
      runBatches oracle ts bs res2 st2 (ws ++ [res2])

/-- The stats states observable at batch boundaries: the state after each
batch's `total_processed` update (the initial state is passed in by the
caller). -/
def boundaryStats (oracle : String → List FetchBehavior) (ts : String) :
    List (List String) → ExtractorStats → Option (List ExtractorStats)
  | [], _ => some []
  | b :: bs, st =>
    match process_batch oracle ts b with
    | none => none
    | some (brs, ups) =>
      let st2 := bumpTotal (applyUpdates st ups) brs.length
      match boundaryStats oracle ts bs st2 with
      | none => none
      | some tr => some (st2 :: tr)

/-- The successive stats states as each individual update lands. -/
def statesDuring (s : ExtractorStats) : List StatUpdate → List ExtractorStats
  | [] => []
  | u :: us => applyUpdate s u :: statesDuring (applyUpdate s u) us

/-- Every stats state observable during the run: within each batch the state
after each completed lookup's counter update, then the state after the
batch's `total_processed` update. -/
def observableStats (oracle : String → List FetchBehavior) (ts : String) :
    List (List String) → ExtractorStats → Option (List ExtractorStats)
  | [], _ => some []
  | b :: bs, st =>
    match process_batch oracle ts b with
    | none => none
    | some (brs, ups) =>
      let mids := statesDuring st ups
      let st2 := bumpTotal (applyUpdates st ups) brs.length
      match observableStats oracle ts bs st2 with
      | none => none
      | some tr => some (mids ++ st2 :: tr)

/-- The stats invariant claimed by the spec. -/
def statsInv (s : ExtractorStats) : Prop :=
  s.successful + s.failed + s.empty_responses = s.total_processed

instance (s : ExtractorStats) : Decidable (statsInv s) := by
  unfold statsInv; infer_instance

/-- Outcome of `process_csv_async` past the batch loop, with the `except`
handler of lines 281-292 made explicit. `endTimeSet` models
`self.stats.end_time = datetime.now()`; `summaryRendered` models
`self.stats.print_summary()`; `salvage` is the `error_backup_...` write
performed when `self.results` is non-empty; `raisedMsg` is the re-raised
exception. -/
structure FatalOutcome where
  raisedMsg : String
  finalStats : ExtractorStats
  endTimeSet : Bool
  summaryRendered : Bool
  salvage : Option (String × List ManyChatData)

/-- Outcome of a run that completes normally (lines 272-279). -/
structure NormalOutcome where
  outputFile : String
  results : List ManyChatData
  finalStats : ExtractorStats
  writes : List (String × List ManyChatData)
  endTimeSet : Bool
  summaryRendered : Bool

/-- The salvage file name  `f"error_backup_{datetime.now().strftime(...)}.csv"`
(line 288). -/
def salvageName (ts : String) : String :=
  "error_backup_" ++ ts ++ ".csv"

/-- The batch loop where `save_progress` may raise: `saveOk k` tells whether
the checkpoint write after the k-th batch succeeds. On a save failure the
loop stops with the accumulated state (the raise escapes the loop). -/
def runBatchesE (oracle : String → List FetchBehavior) (ts : String)
    (saveOk : Nat → Bool) (outputFile : String) :
    List (List String) → List ManyChatData → ExtractorStats → Nat →
    List (String × List ManyChatData) →
    Option (Except (String × List ManyChatData × ExtractorStats ×
                    List (String × List ManyChatData))
                   (List ManyChatData × ExtractorStats ×
                    List (String × List ManyChatData)))
  | [], res, st, _, ws => some (Except.ok (res, st, ws))
  | b :: bs, res, st, k, ws =>
    match process_batch oracle ts b with
    | none => none
    | some (brs, ups) =>
      let res2 := res ++ brs
      let st2 := bumpTotal (applyUpdates st ups) brs.length
      if saveOk k then
        runBatchesE oracle ts saveOk outputFile bs res2 st2 (k + 1)
          (ws ++ [(outputFile, res2)])
      else
        some (Except.error ("save_progress failed", res2, st2, ws))

/-- `process_csv_async` from the batch loop onward: on normal completion set
the end time and render the summary; on an exception escaping the loop run
the handler of lines 281-292 (set end time, render summary, salvage write
guarded by `if self.results:`, re-raise). `initRes` is `self.results` at loop
entry (the resume seed, `[]` on a fresh run). -/
def process_csv (oracle : String → List FetchBehavior) (ts : String)
    (saveOk : Nat → Bool) (outputFile : String) (work : List String)
    (initRes : List ManyChatData) (st0 : ExtractorStats) :
    Option (Except FatalOutcome NormalOutcome) :=
  match runBatchesE oracle ts saveOk outputFile (batches work) initRes st0 0 [] with
  | none => none
  | some (Except.ok (res, st, ws)) =>
    some (Except.ok { outputFile := outputFile, results := res, finalStats := st,
                      writes := ws, endTimeSet := true, summaryRendered := true })
  | some (Except.error (msg, res, st, _)) =>
    some (Except.error
      { raisedMsg := msg, finalStats := st, endTimeSet := true,
        summaryRendered := true,
        salvage := if res.isEmpty then none else some (salvageName ts, res) })

/-- The `RateLimiter` state: configuration plus the recorded request
timestamps. Time is a parameter so the theorems hold for any linearly
ordered additive group of instants (in particular the reals the Python
clock approximates; concrete computations use `Int`). -/
structure RateLimiter (T : Type) where
  max_requests : Nat
  time_window : T
  requests : List T
deriving DecidableEq

/-- `RateLimiter.acquire` called at instant `now`: prune timestamps older
than the window; if at the cap, compute the sleep from the oldest recorded
timestamp, drop it, and sleep when positive; append `now` (the instant the
call STARTED, not the instant it returns). Returns the new state and the
instant at which the call returns (the admission time). `none` models the
`IndexError` of `self.requests[0]` on an empty pruned list (only reachable
with `max_requests = 0`). -/
def acquire {T : Type} [LinearOrderedAddCommGroup T]
    (rl : RateLimiter T) (now : T) : Option (RateLimiter T × T) :=
  let reqs := rl.requests.filter (fun t => now - t ≤ rl.time_window)
  if rl.max_requests ≤ reqs.length then
    match reqs with
    | [] => none
    | t0 :: rest =>
      let sleep := t0 + rl.time_window - now
      let tdone := if sleep > 0 then now + sleep else now
      some ({ rl with requests := rest ++ [now] }, tdone)
  else
    some ({ rl with requests := reqs ++ [now] }, now)

/-- A client issuing `n` acquire calls back to back: each call starts at the
instant the previous one returned. Returns the admission times in order. -/
def acquireRun {T : Type} [LinearOrderedAddCommGroup T]
    (rl : RateLimiter T) (now : T) : Nat → Option (List T × RateLimiter T)
  | 0 => some ([], rl)
  | n + 1 =>
    match acquire rl now with
    | none => none
    | some (rl2, t) =>
      match acquireRun rl2 t n with
      | none => none
      | some (ts, rlf) => some (t :: ts, rlf)

/-- Limiter states reachable from a fresh `RateLimiter(max_requests, time_window)`
by completed `acquire` calls at arbitrary instants. -/
inductive ReachableRL {T : Type} [LinearOrderedAddCommGroup T]
    (maxR : Nat) (w : T) : RateLimiter T → Prop
  | init : ReachableRL maxR w ⟨maxR, w, []⟩
  | step {rl rl2 : RateLimiter T} {now t : T} :
      ReachableRL maxR w rl → acquire rl now = some (rl2, t) →
      ReachableRL maxR w rl2

/-- Whether a stats update is terminal (anything but the rate-limit bump). -/
def isTerminal : StatUpdate → Bool
  | StatUpdate.rateLimited => false
  | _ => true

/-- The sum of the three terminal counters. -/
def outcomeSum (s : ExtractorStats) : Nat :=
  s.successful + s.failed + s.empty_responses

theorem successBranch_fields {email ts : String} {kvs : List (String × JsonVal)}
    {r : ManyChatData} (h : successBranch email ts kvs = Except.ok r) :
    r.email = email ∧ r.processed_at = some ts := by
  unfold successBranch at h
  split at h
  · split at h
    · split at h
      · exact absurd h (by simp)
      · split at h
        · exact absurd h (by simp)
        · cases h; exact ⟨rfl, rfl⟩
    · exact absurd h (by simp)
  · exact absurd h (by simp)

theorem handleResponse_fields (email ts : String) (b : FetchBehavior) :
    (handleResponse email ts b).1.email = email ∧
    (handleResponse email ts b).1.processed_at = some ts := by
  unfold handleResponse
  cases b with
  | netErr msg => exact ⟨rfl, rfl⟩
  | jsonErr status msg => dsimp only; split <;> exact ⟨rfl, rfl⟩
  | ok status body =>
    dsimp only
    split
    · exact ⟨rfl, rfl⟩
    · cases body <;> try exact ⟨rfl, rfl⟩
      case obj kvs =>
        dsimp only
        split
        · cases hsb : successBranch email ts kvs with
          | ok r => simp only [hsb]; exact successBranch_fields hsb
          | error m => simp only [hsb]; exact ⟨rfl, rfl⟩
        · exact ⟨rfl, rfl⟩

theorem handleResponse_terminal (email ts : String) (b : FetchBehavior) :
    isTerminal (handleResponse email ts b).2 = true := by
  unfold handleResponse
  cases b with
  | netErr msg => rfl
  | jsonErr status msg => dsimp only; split <;> rfl
  | ok status body =>
    dsimp only
    split
    · rfl
    · cases body <;> try rfl
      case obj kvs =>
        dsimp only
        split
        · cases hsb : successBranch email ts kvs with
          | ok r => simp only [hsb]; rfl
          | error m => simp only [hsb]; rfl
        · rfl

theorem fetch_fields {email ts : String} {chain : List FetchBehavior}
    {r : ManyChatData} {us : List StatUpdate}
    (h : fetch_manychat_data email ts chain = some (r, us)) :
    r.email = email ∧ r.processed_at = some ts := by
  induction chain generalizing us with
  | nil => exact absurd h (by simp [fetch_manychat_data])
  | cons b rest ih =>
    unfold fetch_manychat_data at h
    split at h
    · cases hr : fetch_manychat_data email ts rest with
      | none => rw [hr] at h; exact absurd h (by simp)
      | some p =>
        rw [hr] at h
        cases h
        exact ih hr
    · cases h
      exact handleResponse_fields email ts b

theorem fetch_one_terminal {email ts : String} {chain : List FetchBehavior}
    {r : ManyChatData} {us : List StatUpdate}
    (h : fetch_manychat_data email ts chain = some (r, us)) :
    us.countP isTerminal = 1 := by
  induction chain generalizing us with
  | nil => exact absurd h (by simp [fetch_manychat_data])
  | cons b rest ih =>
    unfold fetch_manychat_data at h
    split at h
    · cases hr : fetch_manychat_data email ts rest with
      | none => rw [hr] at h; exact absurd h (by simp)
      | some p =>
        rw [hr] at h
        cases h
        have := ih hr
        simp [List.countP_cons, isTerminal, this]
    · cases h
      simp [List.countP_cons, handleResponse_terminal]

theorem process_batch_emails {oracle : String → List FetchBehavior} {ts : String}
    {b : List String} {brs : List ManyChatData} {ups : List StatUpdate}
    (h : process_batch oracle ts b = some (brs, ups)) :
    brs.map ManyChatData.email = b := by
  induction b generalizing brs ups with
  | nil => unfold process_batch at h; cases h; rfl
  | cons e es ih =>
    unfold process_batch at h
    cases hf : fetch_manychat_data e ts (oracle e) with
    | none => rw [hf] at h; exact absurd h (by simp)
    | some p =>
      rw [hf] at h
      cases hb : process_batch oracle ts es with
      | none => rw [hb] at h; exact absurd h (by simp)
      | some q =>
        rw [hb] at h
        cases h
        have h1 := (fetch_fields hf).1
        have h2 := ih hb
        simp [h1, h2]

theorem process_batch_length {oracle : String → List FetchBehavior} {ts : String}
    {b : List String} {brs : List ManyChatData} {ups : List StatUpdate}
    (h : process_batch oracle ts b = some (brs, ups)) :
    brs.length = b.length := by
  have := process_batch_emails h
  calc brs.length = (brs.map ManyChatData.email).length := by simp
    _ = b.length := by rw [this]

theorem process_batch_terminals {oracle : String → List FetchBehavior} {ts : String}
    {b : List String} {brs : List ManyChatData} {ups : List StatUpdate}
    (h : process_batch oracle ts b = some (brs, ups)) :
    ups.countP isTerminal = b.length := by
  induction b generalizing brs ups with
  | nil => unfold process_batch at h; cases h; rfl
  | cons e es ih =>
    unfold process_batch at h
    cases hf : fetch_manychat_data e ts (oracle e) with
    | none => rw [hf] at h; exact absurd h (by simp)
    | some p =>
      rw [hf] at h
      cases hb : process_batch oracle ts es with
      | none => rw [hb] at h; exact absurd h (by simp)
      | some q =>
        rw [hb] at h
        cases h
        have h1 := fetch_one_terminal hf
        have h2 := ih hb
        simp [List.countP_append, h1, h2]
        omega

theorem applyUpdate_outcomeSum (s : ExtractorStats) (u : StatUpdate) :
    outcomeSum (applyUpdate s u)
      = outcomeSum s + (if isTerminal u then 1 else 0) := by
  cases u <;> simp [applyUpdate, outcomeSum, isTerminal] <;> omega

theorem applyUpdate_total (s : ExtractorStats) (u : StatUpdate) :
    (applyUpdate s u).total_processed = s.total_processed := by
  cases u <;> rfl

theorem applyUpdates_outcomeSum (s : ExtractorStats) (us : List StatUpdate) :
    outcomeSum (applyUpdates s us) = outcomeSum s + us.countP isTerminal := by
  induction us generalizing s with
  | nil => simp [applyUpdates, List.countP_nil]
  | cons u us ih =>
    have : applyUpdates s (u :: us) = applyUpdates (applyUpdate s u) us := rfl
    rw [this, ih, applyUpdate_outcomeSum, List.countP_cons]
    split <;> omega

theorem applyUpdates_total (s : ExtractorStats) (us : List StatUpdate) :
    (applyUpdates s us).total_processed = s.total_processed := by
  induction us generalizing s with
  | nil => rfl
  | cons u us ih =>
    have : applyUpdates s (u :: us) = applyUpdates (applyUpdate s u) us := rfl
    rw [this, ih, applyUpdate_total]

theorem batches_join (l : List String) : (batches l).flatten = l := by
  generalize hn : l.length = n
  induction n using Nat.strong_induction_on generalizing l with
  | _ n ih =>
    by_cases h : l = []
    · subst h; simp [batches]
    · rw [batches, dif_neg h]
      have hpos : 0 < l.length := List.length_pos.mpr h
      have hlt : (l.drop 10).length < n := by
        subst hn; simp only [List.length_drop]; omega
      rw [List.flatten_cons, ih _ hlt _ rfl, List.take_append_drop]

theorem mem_batches_ne_nil {l : List String} {b : List String}
    (hb : b ∈ batches l) : b ≠ [] := by
  generalize hn : l.length = n at hb
  induction n using Nat.strong_induction_on generalizing l b with
  | _ n ih =>
    by_cases h : l = []
    · subst h; simp [batches] at hb
    · rw [batches, dif_neg h] at hb
      have hpos : 0 < l.length := List.length_pos.mpr h
      rcases List.mem_cons.mp hb with h1 | h2
      · subst h1
        intro hc
        have hlen := congrArg List.length hc
        rw [List.length_take] at hlen
        simp only [List.length_nil] at hlen
        omega
      · have hlt : (l.drop 10).length < n := by
          subst hn; simp only [List.length_drop]; omega
        exact ih _ hlt h2 rfl

/-- The cumulative email-column contents of the checkpoint writes:
starting from the resumed/accumulated emails, each batch appends itself. -/
def cumPrefixes (start : List String) : List (List String) → List (List String)
  | [] => []
  | b :: bs => (start ++ b) :: cumPrefixes (start ++ b) bs

theorem runBatches_spec {oracle : String → List FetchBehavior} {ts : String} :
    ∀ (bs : List (List String)) (res : List ManyChatData) (st : ExtractorStats)
      (ws : List (List ManyChatData)) (res2 : List ManyChatData)
      (st2 : ExtractorStats) (ws2 : List (List ManyChatData)),
    runBatches oracle ts bs res st ws = some (res2, st2, ws2) →
    ws2.map (List.map ManyChatData.email)
      = ws.map (List.map ManyChatData.email)
        ++ cumPrefixes (res.map ManyChatData.email) bs ∧
    res2.map ManyChatData.email = res.map ManyChatData.email ++ bs.flatten := by
  intro bs
  induction bs with
  | nil =>
    intro res st ws res2 st2 ws2 h
    unfold runBatches at h
    cases h
    simp [cumPrefixes]
  | cons b bs ih =>
    intro res st ws res2 st2 ws2 h
    unfold runBatches at h
    cases hp : process_batch oracle ts b with
    | none => rw [hp] at h; exact absurd h (by simp)
    | some p =>
      rw [hp] at h
      have hmap : p.1.map ManyChatData.email = b :=
        process_batch_emails hp
      have := ih (res ++ p.1) (bumpTotal (applyUpdates st p.2) p.1.length)
        (ws ++ [res ++ p.1]) res2 st2 ws2 h
      rcases this with ⟨h1, h2⟩
      constructor
      · rw [h1]
        simp only [List.map_append, List.map_cons, List.map_nil, cumPrefixes,
          hmap, List.append_assoc]
        rfl
      · rw [h2]
        simp [hmap, List.flatten_cons, List.append_assoc]

theorem runBatchesE_error_res_ne_nil {oracle : String → List FetchBehavior}
    {ts : String} {saveOk : Nat → Bool} {outputFile : String} :
    ∀ (bs : List (List String)) (res : List ManyChatData) (st : ExtractorStats)
      (k : Nat) (ws : List (String × List ManyChatData))
      (msg : String) (res2 : List ManyChatData) (st2 : ExtractorStats)
      (ws2 : List (String × List ManyChatData)),
    (∀ b ∈ bs, b ≠ []) →
    runBatchesE oracle ts saveOk outputFile bs res st k ws
      = some (Except.error (msg, res2, st2, ws2)) →
    res2 ≠ [] := by
  intro bs
  induction bs with
  | nil =>
    intro res st k ws msg res2 st2 ws2 _ h
    unfold runBatchesE at h
    exact absurd h (by simp)
  | cons b bs ih =>
    intro res st k ws msg res2 st2 ws2 hne h
    unfold runBatchesE at h
    cases hp : process_batch oracle ts b with
    | none => rw [hp] at h; exact absurd h (by simp)
    | some p =>
      rw [hp] at h
      dsimp only at h
      by_cases hs : saveOk k = true
      · rw [if_pos hs] at h
        exact ih _ _ _ _ _ _ _ _ (fun x hx => hne x (List.mem_cons_of_mem _ hx)) h
      · rw [if_neg hs] at h
        cases h
        have hb : b ≠ [] := hne b (List.mem_cons_self _ _)
        have hlen : p.1.length = b.length :=
          process_batch_length hp
        intro hc
        have := congrArg List.length hc
        simp only [List.length_append, hlen, List.length_nil] at this
        exact hb (List.eq_nil_of_length_eq_zero (by omega))

theorem boundaryStats_inv {oracle : String → List FetchBehavior} {ts : String} :
    ∀ (bs : List (List String)) (st : ExtractorStats) (tr : List ExtractorStats),
    statsInv st → boundaryStats oracle ts bs st = some tr →
    ∀ s ∈ tr, statsInv s := by
  intro bs
  induction bs with
  | nil =>
    intro st tr _ h s hs
    unfold boundaryStats at h
    cases h
    simp at hs
  | cons b bs ih =>
    intro st tr hinv h s hs
    unfold boundaryStats at h
    cases hp : process_batch oracle ts b with
    | none => rw [hp] at h; exact absurd h (by simp)
    | some p =>
      rw [hp] at h
      dsimp only at h
      cases hrest : boundaryStats oracle ts bs
          (bumpTotal (applyUpdates st p.2) p.1.length) with
      | none => rw [hrest] at h; exact absurd h (by simp)
      | some tr2 =>
        rw [hrest] at h
        cases h
        have hterm : p.2.countP isTerminal = b.length :=
          process_batch_terminals hp
        have hlen : p.1.length = b.length :=
          process_batch_length hp
        have hinv2 : statsInv (bumpTotal (applyUpdates st p.2) p.1.length) := by
          show outcomeSum (bumpTotal (applyUpdates st p.2) p.1.length)
            = (bumpTotal (applyUpdates st p.2) p.1.length).total_processed
          have h1 : outcomeSum (bumpTotal (applyUpdates st p.2) p.1.length)
              = outcomeSum (applyUpdates st p.2) := rfl
          rw [h1, applyUpdates_outcomeSum, hterm]
          show outcomeSum st + b.length
            = (applyUpdates st p.2).total_processed + p.1.length
          rw [applyUpdates_total, hlen]
          have : outcomeSum st = st.total_processed := hinv
          omega
        rcases List.mem_cons.mp hs with h1 | h2
        · subst h1; exact hinv2
        · exact ih _ _ hinv2 hrest s h2

theorem batches_len25 {l : List String} (h : l.length = 25) :
    batches l = [l.take 10, (l.drop 10).take 10, l.drop 20] := by
  have h0 : l ≠ [] := by
    intro hc; subst hc; simp at h
  have h1 : l.drop 10 ≠ [] := by
    intro hc
    have := congrArg List.length hc
    simp only [List.length_drop, List.length_nil, h] at this
    omega
  have h2 : (l.drop 10).drop 10 ≠ [] := by
    intro hc
    have := congrArg List.length hc
    simp only [List.length_drop, List.length_nil, h] at this
    omega
  have h3 : ((l.drop 10).drop 10).drop 10 = [] := by
    apply List.eq_nil_of_length_eq_zero
    simp only [List.length_drop, h]
  rw [batches, dif_neg h0, batches, dif_neg h1, batches, dif_neg h2,
    batches, dif_pos h3]
  have h4 : (l.drop 10).drop 10 = l.drop 20 := by
    rw [List.drop_drop]
  have h5 : (l.drop 20).take 10 = l.drop 20 := by
    apply List.take_of_length_le
    simp only [List.length_drop, h]
    omega
  rw [h4, h5]

theorem acquire_preserves_bound {T : Type} [LinearOrderedAddCommGroup T]
    {rl rl2 : RateLimiter T} {now t : T}
    (hlen : rl.requests.length ≤ rl.max_requests)
    (h : acquire rl now = some (rl2, t)) :
    rl2.requests.length ≤ rl2.max_requests ∧ rl2.max_requests = rl.max_requests := by
  unfold acquire at h
  have hle : (rl.requests.filter (fun t => now - t ≤ rl.time_window)).length
      ≤ rl.requests.length := List.length_filter_le _ _
  dsimp only at h
  split at h
  · split at h
    · exact absurd h (by simp)
    · cases h
      constructor
      · simp only [List.length_append, List.length_cons, List.length_nil]
        rename_i hcap heq
        have : (rl.requests.filter (fun t => now - t ≤ rl.time_window)).length
            ≤ rl.max_requests := le_trans hle hlen
        rw [heq] at this
        simp only [List.length_cons] at this
        omega
      · rfl
  · cases h
    constructor
    · simp only [List.length_append, List.length_cons, List.length_nil]
      rename_i hcap
      omega
    · rfl

/-- C9: after every completed `RateLimiter.acquire()` call the recorded
timestamp list has length at most `max_requests`; the bound holds in every
reachable limiter state and is preserved by every further completed
`acquire` from such a state. -/
theorem C9_requests_bounded {T : Type} [LinearOrderedAddCommGroup T]
    {maxR : Nat} {w : T} {rl : RateLimiter T}
    (h : ReachableRL maxR w rl) :
    rl.requests.length ≤ rl.max_requests ∧
    ∀ (now : T) (rl2 : RateLimiter T) (t : T),
      acquire rl now = some (rl2, t) →
      rl2.requests.length ≤ rl2.max_requests := by
  have main : rl.requests.length ≤ rl.max_requests := by
    induction h with
    | init => simp
    | step hprev hacq ih => exact (acquire_preserves_bound ih hacq).1
  exact ⟨main, fun now rl2 t hacq => (acquire_preserves_bound main hacq).1⟩

theorem C9_requests_bounded_witness :
    (RateLimiter.mk 10 (1 : Int) [(0 : Int)]).requests.length ≤
      (RateLimiter.mk 10 (1 : Int) [(0 : Int)]).max_requests := by
  have hacq : acquire (RateLimiter.mk 10 (1 : Int) []) (0 : Int)
      = some (RateLimiter.mk 10 (1 : Int) [(0 : Int)], (0 : Int)) := by decide
  exact (C9_requests_bounded (ReachableRL.step ReachableRL.init hacq)).1

/-- C7 (code bug evidence): with `RateLimiter(max_requests=1, time_window=1)`
and three back-to-back `acquire` calls starting at instant 0, the admission
instants are 0, 1, 1: the second call sleeps until instant 1 but records its
pre-sleep timestamp 0, so the third call finds a stale window and is admitted
at the same instant 1 — two admissions (more than `max_requests = 1`) fall
inside the trailing unit window ending at instant 1, and the timestamp
recorded for the second call (0) is not its admission instant (1). -/
theorem C7_stale_timestamp_bug :
    acquireRun (RateLimiter.mk 1 (1 : Int) []) 0 3
      = some ([0, 1, 1], RateLimiter.mk 1 (1 : Int) [(1 : Int)]) ∧
    acquire (RateLimiter.mk 1 (1 : Int) [(0 : Int)]) (0 : Int)
      = some (RateLimiter.mk 1 (1 : Int) [(0 : Int)], (1 : Int)) ∧
    ([(0 : Int), 1, 1].countP (fun t => decide (0 < t) && decide (t ≤ 1))) = 2 ∧
    1 < 2 ∧ (RateLimiter.mk 1 (1 : Int) []).max_requests = 1 := by
  refine ⟨by decide, by decide, by decide, by decide, rfl⟩

/-- C3: for a key and any single non-rate-limited response behaviour
(network failure, malformed body, non-2xx status other than 429), the lookup
returns a record (it never propagates the exception) together with exactly
one stats update; on each of the named failure modes the record is the
null-fields record and the update is a `failed` update. -/
theorem C3_lookup_never_raises (email ts : String) (b : FetchBehavior)
    (h : behaviorStatus b ≠ 429) :
    ∃ r u, fetch_manychat_data email ts [b] = some (r, [u]) ∧
      r.email = email ∧ r.processed_at = some ts ∧
      (∀ msg, b = FetchBehavior.netErr msg →
        r = bareRecord email ts ∧ u = StatUpdate.failed email msg) ∧
      (∀ status msg, b = FetchBehavior.jsonErr status msg → status < 400 →
        r = bareRecord email ts ∧ u = StatUpdate.failed email msg) ∧
      (∀ status body, b = FetchBehavior.ok status body → 400 ≤ status →
        r = bareRecord email ts ∧ u = StatUpdate.failed email "HTTPError") := by
  have hfetch : fetch_manychat_data email ts [b]
      = some ((handleResponse email ts b).1, [(handleResponse email ts b).2]) := by
    unfold fetch_manychat_data
    rw [if_neg h]
  refine ⟨(handleResponse email ts b).1, (handleResponse email ts b).2,
    hfetch, (handleResponse_fields email ts b).1,
    (handleResponse_fields email ts b).2, ?_, ?_, ?_⟩
  · intro msg hb
    subst hb
    exact ⟨rfl, rfl⟩
  · intro status msg hb hlt
    subst hb
    unfold handleResponse
    dsimp only
    rw [if_neg (by omega)]
    exact ⟨rfl, rfl⟩
  · intro status body hb hge
    subst hb
    unfold handleResponse
    dsimp only
    rw [if_pos hge]
    exact ⟨rfl, rfl⟩

theorem C3_lookup_never_raises_witness :
    ∃ r u, fetch_manychat_data "bad@x.com" "t" [FetchBehavior.netErr "boom"]
        = some (r, [u]) ∧
      r.email = "bad@x.com" ∧ r.processed_at = some "t" ∧
      (∀ msg, FetchBehavior.netErr "boom" = FetchBehavior.netErr msg →
        r = bareRecord "bad@x.com" "t" ∧ u = StatUpdate.failed "bad@x.com" msg) ∧
      (∀ status msg, FetchBehavior.netErr "boom" = FetchBehavior.jsonErr status msg →
        status < 400 →
        r = bareRecord "bad@x.com" "t" ∧ u = StatUpdate.failed "bad@x.com" msg) ∧
      (∀ status body, FetchBehavior.netErr "boom" = FetchBehavior.ok status body →
        400 ≤ status →
        r = bareRecord "bad@x.com" "t" ∧
        u = StatUpdate.failed "bad@x.com" "HTTPError") :=
  C3_lookup_never_raises "bad@x.com" "t" (FetchBehavior.netErr "boom") (by decide)

/-- C1 counterexample: a 2xx response whose JSON body carries the successful
API status `"success"` but no matching subscriber (no `data`) takes the
success branch: the returned record has null identifier/domain/phone, yet the
`successful` counter is incremented and `empty_responses` stays untouched —
the opposite of what the claim states. -/
theorem C1_success_status_counterexample :
    fetch_manychat_data "nouser@x.com" "t"
        [FetchBehavior.ok 200 (JsonVal.obj [("status", JsonVal.str "success")])]
      = some ({ email := "nouser@x.com", processed_at := some "t" },
              [StatUpdate.success]) ∧
    applyUpdates {} [StatUpdate.success] = { successful := 1 } ∧
    ({ successful := 1 } : ExtractorStats).empty_responses = 0 ∧
    ({ successful := 1 } : ExtractorStats).successful = 1 :=
  ⟨rfl, by decide, rfl, rfl⟩

/-- C1 (amended): the code's no-match signal is a 2xx body that does NOT
carry the successful API status: for every such body the returned record has
null identifier/domain/phone and exactly `empty_responses` is incremented by
1; whereas a body with status `"success"` and no subscriber data yields the
same null-fields record with `successful` incremented instead. -/
theorem C1_empty_on_nonsuccess (email ts : String) (kvs : List (String × JsonVal))
    (h : (jsonGet kvs "status").elim false (fun v => jsonEqStr v "success") = false) :
    fetch_manychat_data email ts [FetchBehavior.ok 200 (JsonVal.obj kvs)]
      = some (bareRecord email ts, [StatUpdate.emptyResp]) ∧
    (∀ s : ExtractorStats, applyUpdates s [StatUpdate.emptyResp]
      = { s with empty_responses := s.empty_responses + 1 }) ∧
    fetch_manychat_data email ts
        [FetchBehavior.ok 200 (JsonVal.obj [("status", JsonVal.str "success")])]
      = some ({ email := email, processed_at := some ts }, [StatUpdate.success]) := by
  refine ⟨?_, fun s => rfl, rfl⟩
  unfold fetch_manychat_data
  rw [if_neg (by simp [behaviorStatus])]
  unfold handleResponse
  dsimp only
  rw [if_neg (by omega), h]
  rfl

theorem C1_empty_on_nonsuccess_witness :
    fetch_manychat_data "nouser@x.com" "t"
        [FetchBehavior.ok 200 (JsonVal.obj [("status", JsonVal.str "error")])]
      = some (bareRecord "nouser@x.com" "t", [StatUpdate.emptyResp]) ∧
    (∀ s : ExtractorStats, applyUpdates s [StatUpdate.emptyResp]
      = { s with empty_responses := s.empty_responses + 1 }) ∧
    fetch_manychat_data "nouser@x.com" "t"
        [FetchBehavior.ok 200 (JsonVal.obj [("status", JsonVal.str "success")])]
      = some ({ email := "nouser@x.com", processed_at := some "t" },
              [StatUpdate.success]) :=
  C1_empty_on_nonsuccess "nouser@x.com" "t" [("status", JsonVal.str "error")] rfl

/-- A custom-field entry the name scan steps over without raising: a JSON
object whose `name` key is present but does not match the scan target. -/
def scanSkips (target : String) (f : JsonVal) : Bool :=
  match f with
  | JsonVal.obj kvs =>
    match jsonGet kvs "name" with
    | some nv => !(jsonEqStr nv target)
    | none => false
  | _ => false

theorem scanField_error_at_bad {target : String} {pre post : List JsonVal}
    {bad : List (String × JsonVal)}
    (hbad : jsonGet bad "name" = none)
    (hpre : ∀ f ∈ pre, scanSkips target f = true) :
    scanField target (pre ++ JsonVal.obj bad :: post)
      = Except.error "KeyError: name" := by
  induction pre with
  | nil =>
    rw [List.nil_append]
    unfold scanField
    dsimp only
    rw [hbad]
  | cons f fs ih =>
    have hf := hpre f (List.mem_cons_self _ _)
    unfold scanSkips at hf
    rw [List.cons_append]
    unfold scanField
    cases f with
    | obj kvs =>
      dsimp only
      dsimp only at hf
      cases hn : jsonGet kvs "name" with
      | none => rfl
      | some nv =>
        rw [hn] at hf
        dsimp only at hf
        have hne : jsonEqStr nv target = false := by
          cases hq : jsonEqStr nv target
          · rfl
          · rw [hq] at hf; exact absurd hf (by simp)
        dsimp only
        rw [if_neg (by simp [hne])]
        exact ih (fun g hg => hpre g (List.mem_cons_of_mem _ hg))
    | null => simp at hf
    | str a => simp at hf
    | num a => simp at hf
    | arr a => simp at hf

/-- C10 counterexample: a 2xx success-status response whose `custom_fields`
contains an entry lacking the `value` key (name `"other"`): the lazy scans
never touch that entry's `value`, no exception occurs, the key is counted
successful (not failed), no error pair is appended, and the full success-path
record (with null fields) is returned — contradicting the claim that any
entry lacking `name` or `value` makes the key count as failed. -/
theorem C10_unscanned_field_counterexample :
    fetch_manychat_data "a@x.com" "t"
        [FetchBehavior.ok 200 (JsonVal.obj
          [("status", JsonVal.str "success"),
           ("data", JsonVal.obj [("custom_fields",
              JsonVal.arr [JsonVal.obj [("name", JsonVal.str "other")]])])])]
      = some ({ email := "a@x.com", processed_at := some "t" },
              [StatUpdate.success]) ∧
    applyUpdates {} [StatUpdate.success] = { successful := 1 } ∧
    ({ successful := 1 } : ExtractorStats).failed = 0 ∧
    ({ successful := 1 } : ExtractorStats).errors = [] :=
  ⟨rfl, by decide, rfl, rfl⟩

/-- C10 (amended): the lookup never crashes on malformed custom-field
entries, but the failed path is taken only when a scan actually evaluates
the malformed entry: whenever an entry lacking `name` appears after only
non-`shopify_domain` entries, the `KeyError` is caught, the key is counted
failed (with the (key, message) pair appended to the error list) and a
record with only key and timestamp is returned; a malformed entry the scans
never evaluate leaves the key counted successful. -/
theorem C10_failed_on_scanned_missing_name (email ts : String)
    (pre post : List JsonVal) (bad : List (String × JsonVal))
    (hbad : jsonGet bad "name" = none)
    (hpre : ∀ f ∈ pre, scanSkips "shopify_domain" f = true) :
    fetch_manychat_data email ts
        [FetchBehavior.ok 200 (JsonVal.obj
          [("status", JsonVal.str "success"),
           ("data", JsonVal.obj
              [("custom_fields", JsonVal.arr (pre ++ JsonVal.obj bad :: post))])])]
      = some (bareRecord email ts, [StatUpdate.failed email "KeyError: name"]) ∧
    ∀ s : ExtractorStats,
      applyUpdates s [StatUpdate.failed email "KeyError: name"]
        = { s with failed := s.failed + 1,
                   errors := s.errors ++ [(email, "KeyError: name")] } := by
  refine ⟨?_, fun s => rfl⟩
  have hscan := @scanField_error_at_bad "shopify_domain" pre post bad hbad hpre
  unfold fetch_manychat_data
  rw [if_neg (by simp [behaviorStatus])]
  unfold handleResponse
  dsimp only
  rw [if_neg (by omega)]
  have hcond : ((jsonGet
      [("status", JsonVal.str "success"),
       ("data", JsonVal.obj
          [("custom_fields", JsonVal.arr (pre ++ JsonVal.obj bad :: post))])]
      "status").elim false (fun v => jsonEqStr v "success")) = true := rfl
  rw [hcond]
  have hsb : successBranch email ts
      [("status", JsonVal.str "success"),
       ("data", JsonVal.obj
          [("custom_fields", JsonVal.arr (pre ++ JsonVal.obj bad :: post))])]
      = Except.error "KeyError: name" := by
    unfold successBranch
    have hdata : (jsonGet
        [("status", JsonVal.str "success"),
         ("data", JsonVal.obj
            [("custom_fields", JsonVal.arr (pre ++ JsonVal.obj bad :: post))])]
        "data").getD (JsonVal.obj [])
        = JsonVal.obj
            [("custom_fields", JsonVal.arr (pre ++ JsonVal.obj bad :: post))] := rfl
    rw [hdata]
    dsimp only
    have hcf : (jsonGet
        [("custom_fields", JsonVal.arr (pre ++ JsonVal.obj bad :: post))]
        "custom_fields").getD (JsonVal.arr [])
        = JsonVal.arr (pre ++ JsonVal.obj bad :: post) := rfl
    rw [hcf]
    dsimp only
    rw [hscan]
  rw [hsb]
  rfl

theorem C10_failed_on_scanned_missing_name_witness :
    fetch_manychat_data "a@x.com" "t"
        [FetchBehavior.ok 200 (JsonVal.obj
          [("status", JsonVal.str "success"),
           ("data", JsonVal.obj
              [("custom_fields", JsonVal.arr
                 ([JsonVal.obj [("name", JsonVal.str "other"), ("value", JsonVal.str "v")]]
                  ++ JsonVal.obj [("value", JsonVal.str "x")] :: []))])])]
      = some (bareRecord "a@x.com" "t",
              [StatUpdate.failed "a@x.com" "KeyError: name"]) ∧
    ∀ s : ExtractorStats,
      applyUpdates s [StatUpdate.failed "a@x.com" "KeyError: name"]
        = { s with failed := s.failed + 1,
                   errors := s.errors ++ [("a@x.com", "KeyError: name")] } :=
  C10_failed_on_scanned_missing_name "a@x.com" "t"
    [JsonVal.obj [("name", JsonVal.str "other"), ("value", JsonVal.str "v")]]
    [] [("value", JsonVal.str "x")] rfl (by decide)

/-- C4: on a resumed run, any key whose normalized form appears in the
checkpoint's email column is excluded from the work list (hence from every
batch, so its lookup is never invoked), and a prior record for that
normalized key is carried into the seeded in-memory result set. -/
theorem C4_resume_skips_checkpointed_keys (input : List String)
    (checkpoint : List ManyChatData) (K : String)
    (h : normalizeEmail K ∈ processedEmails checkpoint) :
    normalizeEmail K ∉ emailsToProcess input (processedEmails checkpoint) ∧
    normalizeEmail K ∉
      (batches (emailsToProcess input (processedEmails checkpoint))).flatten ∧
    ∃ r ∈ resumeResults checkpoint, r.email = normalizeEmail K := by
  have hnot : normalizeEmail K ∉ emailsToProcess input (processedEmails checkpoint) := by
    intro hmem
    unfold emailsToProcess at hmem
    have := List.of_mem_filter hmem
    simp only [Bool.not_eq_true'] at this
    have hnm : normalizeEmail K ∉ processedEmails checkpoint := by simpa using this
    exact hnm h
  refine ⟨hnot, ?_, ?_⟩
  · rw [batches_join]
    exact hnot
  · unfold resumeResults processedEmails at *
    rcases List.mem_map.mp h with ⟨r, hr, he⟩
    exact ⟨r, hr, he⟩

theorem C4_resume_skips_checkpointed_keys_witness :
    normalizeEmail "K@x.com " ∉
      emailsToProcess ["K@x.com ", "other@x.com"]
        (processedEmails [{ email := "k@x.com", processed_at := some "t0" }]) ∧
    normalizeEmail "K@x.com " ∉
      (batches (emailsToProcess ["K@x.com ", "other@x.com"]
        (processedEmails [{ email := "k@x.com", processed_at := some "t0" }]))).flatten ∧
    ∃ r ∈ resumeResults [{ email := "k@x.com", processed_at := some "t0" }],
      r.email = normalizeEmail "K@x.com " :=
  C4_resume_skips_checkpointed_keys ["K@x.com ", "other@x.com"]
    [{ email := "k@x.com", processed_at := some "t0" }] "K@x.com " (by decide)

/-- A lookup oracle whose every response is 2xx with a non-success status
(every key takes the empty-response path). -/
def oracleEmpty : String → List FetchBehavior :=
  fun _ => [FetchBehavior.ok 200 (JsonVal.obj [("status", JsonVal.str "error")])]

theorem c2batches :
    batches (emailsToProcess ["a@x.com", "A@x.com "] [])
      = [["a@x.com", "a@x.com"]] := by
  rw [batches, dif_neg (by decide), batches,
    dif_pos (show List.drop 10 (emailsToProcess ["a@x.com", "A@x.com "] []) = []
      from rfl)]
  rfl

/-- The fresh batch-loop run on the input `["a@x.com", "A@x.com "]`, whose
two entries normalize to the same key (work list as computed by
`c2batches`). -/
def c2run : Option (List ManyChatData × ExtractorStats × List (List ManyChatData)) :=
  runBatches oracleEmpty "t" [["a@x.com", "a@x.com"]] [] {} []

/-- C2 counterexample: a fresh (no-resume) run over the two inputs
`"a@x.com"` and `"A@x.com "` — one key after normalization — produces 2
output records, not 1: the processed-set filter starts empty on a fresh run,
so duplicates after normalization are not removed. -/
theorem C2_duplicate_keys_counterexample :
    batches (emailsToProcess ["a@x.com", "A@x.com "] [])
      = [["a@x.com", "a@x.com"]] ∧
    c2run.map (fun x => x.1.length) = some 2 ∧
    ((["a@x.com", "A@x.com "].map normalizeEmail).dedup).length = 1 ∧
    (2 : Nat) ≠ 1 :=
  ⟨c2batches, rfl, by decide, by decide⟩

/-- C2 (amended): for every run started without resume, the number of
records in the final output equals the number of input keys (every input row
yields exactly one record, so normalized duplicates each yield their own
record; nothing is dropped). -/
theorem C2_output_count_amended (input : List String)
    (oracle : String → List FetchBehavior) (ts : String)
    (res : List ManyChatData) (st : ExtractorStats) (ws : List (List ManyChatData))
    (hrun : runBatches oracle ts (batches (emailsToProcess input [])) [] {} []
      = some (res, st, ws)) :
    res.length = input.length := by
  have hspec := (runBatches_spec _ _ _ _ _ _ _ hrun).2
  rw [batches_join] at hspec
  have h1 : res.length = (emailsToProcess input []).length := by
    have := congrArg List.length hspec
    simpa using this
  rw [h1]
  unfold emailsToProcess
  have hfil : List.filter (fun e => !(List.contains ([] : List String) e))
      (input.map normalizeEmail) = input.map normalizeEmail :=
    List.filter_eq_self.mpr (fun a _ => rfl)
  rw [hfil]
  simp

def c2out : List ManyChatData × ExtractorStats × List (List ManyChatData) :=
  c2run.getD ([], {}, [])

theorem C2_output_count_amended_witness :
    c2out.1.length = (["a@x.com", "A@x.com "] : List String).length :=
  C2_output_count_amended ["a@x.com", "A@x.com "] oracleEmpty "t"
    c2out.1 c2out.2.1 c2out.2.2 (by rw [c2batches]; rfl)

/-- C5: for a fresh run over a 25-key work list (batch size 10), exactly 3
checkpoint writes occur, in strict batch order, holding cumulatively the
records of the first 10, first 20 and all 25 work-list keys — each write the
full accumulated result set (a full overwrite, sizes 10, 20, 25) — and when
the keys are distinct each checkpoint holds exactly one record per key
processed so far. -/
theorem C5_checkpoint_writes (oracle : String → List FetchBehavior)
    (ts : String) (emails : List String) (res : List ManyChatData)
    (st : ExtractorStats) (ws : List (List ManyChatData))
    (hlen : emails.length = 25)
    (hrun : runBatches oracle ts (batches emails) [] {} [] = some (res, st, ws)) :
    ws.length = 3 ∧
    ws.map (List.map ManyChatData.email)
      = [emails.take 10, emails.take 20, emails] ∧
    ws.map List.length = [10, 20, 25] ∧
    (emails.Nodup → ∀ w ∈ ws, (w.map ManyChatData.email).Nodup) := by
  rw [batches_len25 hlen] at hrun
  have hspec := (runBatches_spec _ _ _ _ _ _ _ hrun).1
  simp only [cumPrefixes, List.map_nil, List.nil_append] at hspec
  have h12 : emails.take 10 ++ (emails.drop 10).take 10 = emails.take 20 := by
    rw [← List.take_add]
  have h123 : emails.take 20 ++ emails.drop 20 = emails := List.take_append_drop _ _
  rw [h12, h123] at hspec
  have hmaps : ws.map (List.map ManyChatData.email)
      = [emails.take 10, emails.take 20, emails] := hspec
  have hwslen : ws.length = 3 := by
    have := congrArg List.length hmaps
    simpa using this
  have hlens : ws.map List.length = [10, 20, 25] := by
    have h1 : ws.map List.length
        = (ws.map (List.map ManyChatData.email)).map List.length := by
      simp [List.map_map, Function.comp]
    rw [h1, hmaps]
    simp [List.length_take, List.length_drop, hlen]
  refine ⟨hwslen, hmaps, hlens, ?_⟩
  intro hnd w hw
  have hmem : w.map ManyChatData.email ∈ ws.map (List.map ManyChatData.email) :=
    List.mem_map_of_mem _ hw
  rw [hmaps] at hmem
  rcases List.mem_cons.mp hmem with h1 | hmem
  · rw [h1]; exact List.Nodup.sublist (List.take_sublist _ _) hnd
  rcases List.mem_cons.mp hmem with h2 | hmem
  · rw [h2]; exact List.Nodup.sublist (List.take_sublist _ _) hnd
  rcases List.mem_cons.mp hmem with h3 | hmem
  · rw [h3]; exact hnd
  · simp at hmem

/-- 25 distinct keys for the 25-key checkpoint scenario. -/
def emails25 : List String :=
  ["e01@x.com", "e02@x.com", "e03@x.com", "e04@x.com", "e05@x.com",
   "e06@x.com", "e07@x.com", "e08@x.com", "e09@x.com", "e10@x.com",
   "e11@x.com", "e12@x.com", "e13@x.com", "e14@x.com", "e15@x.com",
   "e16@x.com", "e17@x.com", "e18@x.com", "e19@x.com", "e20@x.com",
   "e21@x.com", "e22@x.com", "e23@x.com", "e24@x.com", "e25@x.com"]

/-- The fresh batch-loop run over `emails25` (its three batches spelled out,
as `batches_len25` computes them). -/
def c5run : Option (List ManyChatData × ExtractorStats × List (List ManyChatData)) :=
  runBatches oracleEmpty "t"
    [emails25.take 10, (emails25.drop 10).take 10, emails25.drop 20] [] {} []

def c5out : List ManyChatData × ExtractorStats × List (List ManyChatData) :=
  c5run.getD ([], {}, [])

theorem C5_checkpoint_writes_witness :
    c5out.2.2.length = 3 ∧
    c5out.2.2.map (List.map ManyChatData.email)
      = [emails25.take 10, emails25.take 20, emails25] ∧
    c5out.2.2.map List.length = [10, 20, 25] ∧
    (emails25.Nodup → ∀ w ∈ c5out.2.2, (w.map ManyChatData.email).Nodup) :=
  C5_checkpoint_writes oracleEmpty "t" emails25 c5out.1 c5out.2.1 c5out.2.2
    rfl
    (by rw [batches_len25 (show emails25.length = 25 from rfl)]; rfl)

/-- A lookup oracle whose every response is a bare 2xx success body. -/
def oracleSuccess : String → List FetchBehavior :=
  fun _ => [FetchBehavior.ok 200 (JsonVal.obj [("status", JsonVal.str "success")])]

/-- The observable stats states of a one-batch run over one key whose lookup
succeeds. -/
def c6trace : Option (List ExtractorStats) :=
  observableStats oracleSuccess "t" [["a@x.com"]] {}

/-- C6 counterexample: in a run over one batch `["a@x.com"]` whose lookup
succeeds, the state observable after the lookup's counter update but before
the batch's `total_processed` update has successful + failed +
empty_responses = 1 while total_processed = 0 — the per-lookup counters land
during the batch and `total_processed` only after it, so the invariant fails
between individual lookup completions. -/
theorem C6_midbatch_counterexample :
    c6trace = some [{ successful := 1 },
                    { successful := 1, total_processed := 1 }] ∧
    ¬ statsInv { successful := 1 } ∧
    statsInv ({} : ExtractorStats) :=
  ⟨rfl, by decide, by decide⟩

/-- C6 (amended): the invariant successful + failed + empty_responses =
total_processed holds at run start and at every batch boundary — every state
observed right after a batch's `total_processed` update — though not between
individual lookup completions inside a batch. -/
theorem C6_invariant_at_boundaries (oracle : String → List FetchBehavior)
    (ts : String) (bs : List (List String)) (st : ExtractorStats)
    (tr : List ExtractorStats) (hinv : statsInv st)
    (htr : boundaryStats oracle ts bs st = some tr) :
    ∀ s ∈ tr, statsInv s :=
  boundaryStats_inv bs st tr hinv htr

theorem C6_invariant_at_boundaries_witness :
    statsInv ({ successful := 1, total_processed := 1 } : ExtractorStats) :=
  C6_invariant_at_boundaries oracleSuccess "t" [["a@x.com"]] {}
    ((boundaryStats oracleSuccess "t" [["a@x.com"]] {}).getD [])
    (by decide) rfl { successful := 1, total_processed := 1 } (by decide)

theorem c8batches : batches ["a@x.com"] = [["a@x.com"]] := by
  rw [batches, dif_neg (by decide), batches,
    dif_pos (show List.drop 10 ["a@x.com"] = [] from rfl)]
  rfl

/-- C8: whenever an exception escapes the batch loop (a checkpoint-write
failure), the handler sets the end timestamp, renders the summary, persists
the accumulated — necessarily non-empty — result set to the salvage location
`error_backup_<timestamp>.csv` (distinct from any checkpoint path that is
not itself of that form), and re-raises the same exception to the caller. -/
theorem C8_salvage_on_fatal (oracle : String → List FetchBehavior)
    (ts : String) (saveOk : Nat → Bool) (outputFile : String)
    (work : List String) (initRes : List ManyChatData) (st0 : ExtractorStats)
    (f : FatalOutcome)
    (hout : outputFile ≠ salvageName ts)
    (hrun : process_csv oracle ts saveOk outputFile work initRes st0
      = some (Except.error f)) :
    f.endTimeSet = true ∧ f.summaryRendered = true ∧
    ∃ msg res2 st2 ws2,
      runBatchesE oracle ts saveOk outputFile (batches work) initRes st0 0 []
        = some (Except.error (msg, res2, st2, ws2)) ∧
      f.raisedMsg = msg ∧ f.finalStats = st2 ∧
      res2 ≠ [] ∧ f.salvage = some (salvageName ts, res2) ∧
      salvageName ts ≠ outputFile := by
  unfold process_csv at hrun
  cases hl : runBatchesE oracle ts saveOk outputFile (batches work) initRes st0 0 []
    with
  | none => rw [hl] at hrun; exact absurd hrun (by simp)
  | some r =>
    rw [hl] at hrun
    cases r with
    | ok v =>
      dsimp only at hrun
      exact absurd hrun (by simp)
    | error e =>
      obtain ⟨msg, res2, st2, ws2⟩ := e
      dsimp only at hrun
      have hne : res2 ≠ [] :=
        runBatchesE_error_res_ne_nil _ _ _ _ _ _ _ _ _
          (fun b hb => mem_batches_ne_nil hb) hl
      have hie : res2.isEmpty = false := by
        cases res2 with
        | nil => exact absurd rfl hne
        | cons a l => rfl
      rw [hie] at hrun
      cases hrun
      exact ⟨rfl, rfl, msg, res2, st2, ws2, rfl, rfl, rfl, hne, by simp,
        fun hc => hout hc.symm⟩

/-- A save behaviour where every checkpoint write raises. -/
def c8saveOk : Nat → Bool := fun _ => false

/-- The fatal outcome of the one-key run whose first checkpoint write
raises. -/
def c8fatal : FatalOutcome :=
  { raisedMsg := "save_progress failed",
    finalStats := { total_processed := 1, empty_responses := 1 },
    endTimeSet := true, summaryRendered := true,
    salvage := some (salvageName "T", [bareRecord "a@x.com" "T"]) }

theorem C8_salvage_on_fatal_witness :
    c8fatal.endTimeSet = true ∧ c8fatal.summaryRendered = true ∧
    ∃ msg res2 st2 ws2,
      runBatchesE oracleEmpty "T" c8saveOk "out.csv" (batches ["a@x.com"])
          [] {} 0 []
        = some (Except.error (msg, res2, st2, ws2)) ∧
      c8fatal.raisedMsg = msg ∧ c8fatal.finalStats = st2 ∧
      res2 ≠ [] ∧ c8fatal.salvage = some (salvageName "T", res2) ∧
      salvageName "T" ≠ "out.csv" :=
  C8_salvage_on_fatal oracleEmpty "T" c8saveOk "out.csv" ["a@x.com"] [] {}
    c8fatal (by decide)
    (by unfold process_csv; rw [c8batches]; rfl)
